import Mathlib

/-!
Verification of the Ctl-Challenge-roller core engines, shallowly embedded
from `src/App.tsx`.

The embedding covers:
* the token-pool generator `generateTokens` (fixed literal pools, the
  counter-based `filterBad` removal, id assignment, and the
  comparator-driven shuffle `.sort(() => Math.random() - 0.5)`);
* the board state machine (`handleStartRound`, `handleTokenClick`,
  `handleNextPhase`, `handleResetGame`) together with the reachability
  relation induced by the UI wiring (which button/click is rendered in
  which phase);
* the exploding-dice roller `rollDice` / `performRolls`.

Randomness is made explicit: `Math.random()` draws become an injected
stream, so every operation is a pure function of the state and the stream.
-/

namespace Roller

inductive OutcomeType where
  | good
  | bad
  | retry
deriving DecidableEq, Repr

inductive Tier where
  | basic
  | advanced
  | hard
deriving DecidableEq, Repr

inductive Phase where
  | input
  | playing
  | summary
  | «end»
deriving DecidableEq, Repr

/-- A pool entry before ids are assigned: `{ type, tier }` in the source. -/
structure TokenProto where
  type : OutcomeType
  tier : Tier
deriving DecidableEq, Repr

/-- `Token` from the source: `{ id, type, tier, revealed }`. -/
structure Token where
  id : String
  type : OutcomeType
  tier : Tier
  revealed : Bool
deriving DecidableEq, Repr

/-- `GameState` from the source. -/
structure GameState where
  round : Nat
  successes : Nat
  tokens : List Token
  history : List (Option OutcomeType)
  phase : Phase
  peek : Bool
deriving DecidableEq, Repr

/-- `DiceState` from the source. -/
structure DiceState where
  stats : Nat
  skills : Nat
  bonuses : Nat
  lastRolls : List Nat
  totalSuccesses : Option Nat
deriving DecidableEq, Repr

/-- The literal `basic` pool: `[good, bad, retry, retry]`. -/
def basic : List TokenProto :=
  [⟨.good, .basic⟩, ⟨.bad, .basic⟩, ⟨.retry, .basic⟩, ⟨.retry, .basic⟩]

/-- The literal `advanced` pool: `[good, good, bad, bad]`. -/
def advanced : List TokenProto :=
  [⟨.good, .advanced⟩, ⟨.good, .advanced⟩, ⟨.bad, .advanced⟩, ⟨.bad, .advanced⟩]

/-- The literal `hard` pool: `[good, bad]`. -/
def hard : List TokenProto :=
  [⟨.good, .hard⟩, ⟨.bad, .hard⟩]

/-- The closure-counter filter from the source, with the mutable `removed`
counter made an explicit argument.  `pool.filter(t => { if (t.type === 'bad'
&& removed < count) { removed++; return false } return true })`. -/
def filterBadGo (count : Nat) : Nat → List TokenProto → List TokenProto
  | _, [] => []
  | removed, t :: ts =>
    if t.type = .bad ∧ removed < count then filterBadGo count (removed + 1) ts
    else t :: filterBadGo count removed ts

/-- `filterBad(pool, count)` from the source. -/
def filterBad (pool : List TokenProto) (count : Nat) : List TokenProto :=
  filterBadGo count 0 pool

/-- The assembled pool before id assignment and shuffling:
`[...basic, ...filterBad(advanced, removeAdvanced), ...filterBad(hard, removeHard)]`
with `removeAdvanced = min(successes, 2)` and
`removeHard = max(0, successes - 2)` (truncated subtraction on `Nat`). -/
def preShufflePool (successes : Nat) : List TokenProto :=
  basic ++ filterBad advanced (min successes 2) ++ filterBad hard (successes - 2)

/-- The id string `token-${ts}-${i}` (the source uses `Date.now()` for
`ts`; we keep the timestamp as a parameter). -/
def mkId (ts i : Nat) : String :=
  "token-" ++ toString ts ++ "-" ++ toString i

/-- `.map((t, i) => ({ ...t, id: mkId ts i, revealed: false }))`. -/
def assignIds (ts : Nat) : Nat → List TokenProto → List Token
  | _, [] => []
  | i, t :: ts' => ⟨mkId ts i, t.type, t.tier, false⟩ :: assignIds ts (i + 1) ts'

/-- One insertion step of the comparator-driven sort.  The comparator's
sign on the `k`-th call is drawn from the stream `c`; `c k = true` stands
for a negative comparator value (put `x` before `y`).  Models a single
binary/linear insertion of `.sort` with the impure comparator
`() => Math.random() - 0.5`. -/
def insertRand (c : Nat → Bool) : Nat → α → List α → Nat × List α
  | k, x, [] => (k, [x])
  | k, x, y :: ys =>
    if c k then (k + 1, x :: y :: ys)
    else
      let p := insertRand c (k + 1) x ys
      (p.1, y :: p.2)

/-- The comparator-driven sort: insertion sort whose every comparison
consumes the next value of the comparator stream `c`.  This models
`Array.prototype.sort(() => Math.random() - 0.5)` (engines use insertion
sort on short arrays); the returned `Nat` is the number of comparator
calls consumed. -/
def sortRand (c : Nat → Bool) : Nat → List α → Nat × List α
  | k, [] => (k, [])
  | k, x :: xs =>
    let p := sortRand c k xs
    insertRand c p.1 x p.2

/-- `generateTokens(successes)` from the source: assemble the filtered
pools, assign fresh ids, then shuffle with the random comparator sort.
`ts` is the `Date.now()` timestamp and `c` the comparator draw stream. -/
def generateTokens (ts : Nat) (c : Nat → Bool) (successes : Nat) : List Token :=
  (sortRand c 0 (assignIds ts 0 (preShufflePool successes))).2

/-- The initial `GameState` (also the reset target). -/
def initState : GameState :=
  ⟨0, 0, [], [none, none, none], .input, false⟩

/-- `handleStartRound` from the source: unconditionally moves to `playing`
and replaces `tokens` with a fresh generation from `successes`.  The
generation (timestamp and comparator stream already applied) is injected
as `gen`. -/
def handleStartRound (gen : Nat → List Token) (s : GameState) : GameState :=
  { s with phase := .playing, tokens := gen s.successes }

/-- `tokens.map(t => t.id === id ? { ...t, revealed: true } : t)` — the
`newTokens` computation inside `handleTokenClick`. -/
def revealMap (id : String) (l : List Token) : List Token :=
  l.map (fun t => if t.id == id then { t with revealed := true } else t)

/-- `handleTokenClick(id)` from the source. -/
def handleTokenClick (id : String) (s : GameState) : GameState :=
  match s.tokens.find? (fun t => t.id == id) with
  | none => s
  | some clicked =>
    if clicked.revealed then s
    else if clicked.type = .retry then { s with tokens := revealMap id s.tokens }
    else
      { s with tokens := revealMap id s.tokens,
               history := s.history.set s.round (some clicked.type),
               phase := .summary }

/-- `handleNextPhase` from the source (`isGameOver = round >= 2`). -/
def handleNextPhase (s : GameState) : GameState :=
  { s with phase := if 2 ≤ s.round then .«end» else .input,
           round := if 2 ≤ s.round then s.round else s.round + 1,
           successes := 0,
           peek := false }

/-- `handleResetGame` from the source. -/
def handleResetGame : GameState := initState

/-- The steps the UI can perform, with the guards the rendering imposes:
the start button exists only in the `input` phase, a token click is wired
only while `playing` on the rendered board, the continue button only in
`summary`; reset, the successes text field (clamped to `[0,3]`) and the
peek key are as in the source. -/
inductive Step : GameState → GameState → Prop
  | start (s : GameState) (ts : Nat) (l : List Token) (hp : s.phase = .input)
      (hl : l.Perm (assignIds ts 0 (preShufflePool s.successes))) :
      Step s { s with phase := .playing, tokens := l }
  | click (s : GameState) (id : String) (hp : s.phase = .playing) :
      Step s (handleTokenClick id s)
  | next (s : GameState) (hp : s.phase = .summary) :
      Step s (handleNextPhase s)
  | reset (s : GameState) : Step s initState
  | setSucc (s : GameState) (v : Int) (hp : s.phase = .input) :
      Step s { s with successes := (min (max v 0) 3).toNat }
  | peekSet (s : GameState) (b : Bool) : Step s { s with peek := b }

/-- A board state the UI can actually reach from the initial state. -/
def Reachable (s : GameState) : Prop :=
  Relation.ReflTransGen Step initState s

/-- One batch of `count` draws starting at stream position `pos`:
the loop body `Math.floor(Math.random() * 10) + 1` with the draw stream
made explicit. -/
def rollBatch (ρ : Nat → Nat) (pos count : Nat) : List Nat :=
  (List.range count).map (fun i => ρ (pos + i))

/-- `performRolls(count)` from the source, with an explicit fuel bound on
the recursion depth (the source recurses unboundedly) and the draw stream
`ρ` consumed from position `pos`.  Returns the rolls pushed and the
successes counted, or `none` when the fuel is exhausted before a depth
produces zero tens. -/
def performRolls (ρ : Nat → Nat) : Nat → Nat → Nat → Option (List Nat × Nat)
  | 0, _, _ => none
  | fuel + 1, pos, count =>
    if (rollBatch ρ pos count).countP (fun r => r == 10) = 0 then
      some (rollBatch ρ pos count, (rollBatch ρ pos count).countP (fun r => 8 ≤ r))
    else
      match performRolls ρ fuel (pos + count)
          ((rollBatch ρ pos count).countP (fun r => r == 10)) with
      | none => none
      | some (rs, s2) =>
        some (rollBatch ρ pos count ++ rs,
              (rollBatch ρ pos count).countP (fun r => 8 ≤ r) + s2)

/-- `rollDice` from the source: no-op when the configured pool is empty,
otherwise run `performRolls(totalDice)` and store the rolls and the
success count.  `none` means the recursion outran the fuel. -/
def rollDice (ρ : Nat → Nat) (fuel : Nat) (s : DiceState) : Option DiceState :=
  if s.stats + s.skills + s.bonuses = 0 then some s
  else
    match performRolls ρ fuel 0 (s.stats + s.skills + s.bonuses) with
    | none => none
    | some (rolls, succ) =>
      some { s with lastRolls := rolls, totalSuccesses := some succ }

/-- The exploding recursion of `performRolls` terminates on draw stream
`ρ` from an initial pool of `n` dice. -/
def TerminatesRolls (ρ : Nat → Nat) (n : Nat) : Prop :=
  ∃ fuel r, performRolls ρ fuel 0 n = some r

/-- Modelled from the spec: remove the first `n` tokens whose outcome is
`bad`, scanning left to right, leaving every other token untouched and in
relative order (spec 4.1, removal policy). -/
def removeFirstBadN : Nat → List TokenProto → List TokenProto
  | 0, l => l
  | _ + 1, [] => []
  | n + 1, t :: ts =>
    if t.type = .bad then removeFirstBadN n ts
    else t :: removeFirstBadN (n + 1) ts

/-- A concrete round-1 board: the unshuffled generation for
`pendingSuccesses = 0` at timestamp 0 (one possible output of
`generateTokens`, namely the identity permutation). -/
def c2Pool : List Token := assignIds 0 0 (preShufflePool 0)

/-- The state right after pressing the start button on the initial state
with that concrete pool. -/
def c2S1 : GameState := { initState with phase := .playing, tokens := c2Pool }

/-- The state after clicking the basic `good` token (`token-0-0`). -/
def c2S2 : GameState := handleTokenClick "token-0-0" c2S1

/-- The state after pressing the continue button in the summary phase. -/
def c2State : GameState := handleNextPhase c2S2

/-- A deterministic token generation (identity permutation, timestamp 0),
one possible behaviour of `generateTokens`. -/
def c4Gen : Nat → List Token := fun p => assignIds 0 0 (preShufflePool p)

/-- A state sitting in the `summary` phase. -/
def c4SummaryState : GameState := { initState with phase := .summary }

/-- A state in the `input` phase that still holds an unrevealed token. -/
def c7InputState : GameState :=
  { initState with tokens := [⟨"a", .good, .basic, false⟩] }

/-- All comparator-outcome streams of length `n`, each equally likely for
a fair comparator. -/
def boolStreams : Nat → List (List Bool)
  | 0 => [[]]
  | n + 1 => (boolStreams n).flatMap (fun bs => [true :: bs, false :: bs])

/-- The ordering produced by the random comparator sort on the 3-element
list `[0, 1, 2]` for each of the 8 equally likely comparator streams (an
insertion sort of 3 elements consumes at most 3 comparisons). -/
def randSortOutcomes : List (List Nat) :=
  (boolStreams 3).map (fun bs => (sortRand (fun i => bs.getD i false) 0 [0, 1, 2]).2)

theorem insertRand_length (c : Nat → Bool) (k : Nat) (x : α) (l : List α) :
    ((insertRand c k x l).2).length = l.length + 1 := by
  induction l generalizing k with
  | nil => rfl
  | cons y ys ih =>
    by_cases h : c k
    · simp [insertRand, h]
    · simp [insertRand, h, ih]

theorem sortRand_length (c : Nat → Bool) (k : Nat) (l : List α) :
    ((sortRand c k l).2).length = l.length := by
  induction l generalizing k with
  | nil => rfl
  | cons x xs ih => simp [sortRand, insertRand_length, ih]

theorem assignIds_length (ts i : Nat) (l : List TokenProto) :
    (assignIds ts i l).length = l.length := by
  induction l generalizing i with
  | nil => rfl
  | cons t ts' ih => simp [assignIds, ih]

/-- C1 (amended): for every `pendingSuccesses p ≤ 3`, every timestamp and
every comparator stream, `generateTokens` returns a pool of length
`10 - min(p,2) - max(0,p-2)`, i.e. 10, 9, 8, 7 for p = 0, 1, 2, 3. -/
theorem generateTokens_length (ts : Nat) (c : Nat → Bool) (p : Nat) (hp : p ≤ 3) :
    (generateTokens ts c p).length = 10 - min p 2 - (p - 2) := by
  unfold generateTokens
  rw [sortRand_length, assignIds_length]
  interval_cases p <;> rfl

theorem generateTokens_length_witness :
    (3 ≤ 3) ∧ (generateTokens 1 (fun _ => false) 3).length = 10 - min 3 2 - (3 - 2) :=
  ⟨by decide, generateTokens_length 1 (fun _ => false) 3 (by decide)⟩

/-- C1 (counterexample): at `pendingSuccesses = 3` the generated pool has
7 tokens, not the 8 the specification lists. -/
theorem generateTokens_three_ne_eight :
    (generateTokens 0 (fun _ => true) 3).length = 7 ∧
    (generateTokens 0 (fun _ => true) 3).length ≠ 8 := by
  exact ⟨by decide, by decide⟩

/-- C2 (amended): `handleNextPhase` moves to `end` when `round ≥ 2` and to
`input` otherwise, but it does not clear `tokens`: the previous round's
board is carried over unchanged. -/
theorem handleNextPhase_keeps_tokens (s : GameState) :
    (handleNextPhase s).tokens = s.tokens ∧
    (handleNextPhase s).phase = (if 2 ≤ s.round then Phase.«end» else Phase.input) :=
  ⟨rfl, rfl⟩

/-- C2 (counterexample): a reachable state in the `input` phase whose
`tokens` sequence is not empty — start round 1, reveal the basic `good`
token, press continue: the stale 10-token board survives into `input`. -/
theorem stale_tokens_reachable_in_input :
    Reachable c2State ∧ c2State.phase = .input ∧ c2State.tokens ≠ [] := by
  refine ⟨?_, by decide, by decide⟩
  have h1 : Step initState c2S1 :=
    Step.start initState 0 c2Pool rfl (List.Perm.refl _)
  have h2 : Step c2S1 c2S2 := Step.click c2S1 "token-0-0" rfl
  have h3 : Step c2S2 c2State := Step.next c2S2 (by decide)
  exact Relation.ReflTransGen.tail
    (Relation.ReflTransGen.tail (Relation.ReflTransGen.single h1) h2) h3

/-- C3 (code bug): the shuffle is `sort(() => Math.random() - 0.5)`, a
comparator-driven random sort.  Over the 8 equally likely comparator
streams for a 3-element pool, the orderings `[0,1,2]` and `[1,0,2]` occur
2 and 1 times respectively, so the permutation distribution is not
uniform (uniformity would require every ordering to occur equally often). -/
theorem randomSort_not_uniform :
    randSortOutcomes.length = 8 ∧
    randSortOutcomes.count [0, 1, 2] = 2 ∧
    randSortOutcomes.count [1, 0, 2] = 1 ∧
    randSortOutcomes.count [0, 1, 2] ≠ randSortOutcomes.count [1, 0, 2] := by
  exact ⟨by decide, by decide, by decide, by decide⟩

/-- C4 (amended): `handleStartRound` applies unconditionally in every
phase: it always moves to `playing` and regenerates `tokens` from
`successes`, touching neither `round` nor `history`.  The input-phase-only
restriction lives in the UI (the start button is rendered only in the
`input` phase), not in the handler, and no rejection is surfaced. -/
theorem handleStartRound_unconditional (gen : Nat → List Token) (s : GameState) :
    (handleStartRound gen s).phase = .playing ∧
    (handleStartRound gen s).tokens = gen s.successes ∧
    (handleStartRound gen s).round = s.round ∧
    (handleStartRound gen s).history = s.history :=
  ⟨rfl, rfl, rfl, rfl⟩

/-- C4 (counterexample): invoked in the `summary` phase, `handleStartRound`
is not rejected and does not leave the state unchanged — it silently
moves to `playing` with a fresh board. -/
theorem handleStartRound_applies_outside_input :
    c4SummaryState.phase ≠ .input ∧
    handleStartRound c4Gen c4SummaryState ≠ c4SummaryState ∧
    (handleStartRound c4Gen c4SummaryState).phase = .playing := by
  exact ⟨by decide, by decide, by decide⟩

/-- C6: for every `pendingSuccesses p ≤ 3` the assembled pool (before
shuffling) is `basic ++ filteredAdvanced ++ filteredHard`, where the
counter-based `filterBad` agrees with the specification's rule of
removing exactly the first `min(p,2)` (resp. `max(0,p-2)`) `bad` tokens in
literal order, and the basic pool's 4 tokens stay as the unmodified
prefix. -/
theorem preShufflePool_composition (p : Nat) (hp : p ≤ 3) :
    preShufflePool p
      = basic ++ removeFirstBadN (min p 2) advanced ++ removeFirstBadN (p - 2) hard ∧
    (preShufflePool p).take 4 = basic := by
  revert hp
  revert p
  decide

theorem preShufflePool_composition_witness :
    (3 ≤ 3) ∧
    (preShufflePool 3
      = basic ++ removeFirstBadN (min 3 2) advanced ++ removeFirstBadN (3 - 2) hard ∧
     (preShufflePool 3).take 4 = basic) :=
  ⟨by decide, preShufflePool_composition 3 (by decide)⟩

theorem find?_eq_of_countP_eq_one {α : Type} (p : α → Bool) (t : α) (l : List α)
    (hmem : t ∈ l) (hp : p t = true) (hc : l.countP p = 1) :
    l.find? p = some t := by
  induction l with
  | nil => cases hmem
  | cons a as ih =>
    by_cases ha : p a = true
    · have h0 : as.countP p = 0 := by
        have hstep : (a :: as).countP p = as.countP p + 1 := List.countP_cons_of_pos p as ha
        rw [hstep] at hc
        omega
      have hta : t = a := by
        rcases List.mem_cons.mp hmem with h | h
        · exact h
        · exfalso
          have : 0 < as.countP p := List.countP_pos_iff.mpr ⟨t, h, hp⟩
          omega
      rw [List.find?_cons_of_pos _ ha, hta]
    · rw [List.find?_cons_of_neg _ ha]
      have hta : t ∈ as := by
        rcases List.mem_cons.mp hmem with h | h
        · exact absurd (h ▸ hp) ha
        · exact h
      have hc' : as.countP p = 1 := by
        have hstep : (a :: as).countP p = as.countP p := List.countP_cons_of_neg p as ha
        rw [hstep] at hc
        exact hc
      exact ih hta hc'

/-- C5: in the `playing` phase, clicking an unrevealed token with a unique
id marks exactly that token revealed and keeps every other token; a
`retry` outcome keeps the phase `playing` and the history untouched,
while a `good`/`bad` outcome writes the outcome into `history[round]` and
moves the phase to `summary`. -/
theorem handleTokenClick_reveal_spec (s : GameState) (t : Token) (id : String)
    (hph : s.phase = .playing) (hmem : t ∈ s.tokens) (hid : t.id = id)
    (hrev : t.revealed = false)
    (huniq : s.tokens.countP (fun u => u.id == id) = 1) :
    (∀ u ∈ s.tokens, u.id ≠ id → u ∈ (handleTokenClick id s).tokens) ∧
    { t with revealed := true } ∈ (handleTokenClick id s).tokens ∧
    (handleTokenClick id s).round = s.round ∧
    (handleTokenClick id s).successes = s.successes ∧
    (t.type = .retry →
      (handleTokenClick id s).phase = .playing ∧
      (handleTokenClick id s).history = s.history) ∧
    (t.type ≠ .retry →
      (handleTokenClick id s).phase = .summary ∧
      (handleTokenClick id s).history = s.history.set s.round (some t.type)) := by
  have hfind : s.tokens.find? (fun u => u.id == id) = some t :=
    find?_eq_of_countP_eq_one _ t _ hmem (by simp [hid]) huniq
  have hmap1 : ∀ u ∈ s.tokens, u.id ≠ id → u ∈ revealMap id s.tokens := by
    intro u hu hne
    have heq : (fun v : Token => if v.id == id then { v with revealed := true } else v) u = u := by
      simp [hne]
    exact heq ▸ List.mem_map_of_mem _ hu
  have hmap2 : { t with revealed := true } ∈ revealMap id s.tokens := by
    have heq : (fun v : Token => if v.id == id then { v with revealed := true } else v) t
        = { t with revealed := true } := by
      simp [hid]
    exact heq ▸ List.mem_map_of_mem _ hmem
  by_cases hty : t.type = OutcomeType.retry
  · have hs : handleTokenClick id s = { s with tokens := revealMap id s.tokens } := by
      unfold handleTokenClick
      rw [hfind]
      simp [hrev, hty]
    rw [hs]
    exact ⟨hmap1, hmap2, rfl, rfl, fun _ => ⟨hph, rfl⟩, fun h => absurd hty h⟩
  · have hs : handleTokenClick id s
        = { s with tokens := revealMap id s.tokens,
                   history := s.history.set s.round (some t.type),
                   phase := .summary } := by
      unfold handleTokenClick
      rw [hfind]
      simp [hrev, hty]
    rw [hs]
    exact ⟨hmap1, hmap2, rfl, rfl, fun h => absurd h hty, fun _ => ⟨rfl, rfl⟩⟩

theorem handleTokenClick_reveal_spec_witness :
    (GameState.phase
        { initState with phase := .playing,
                         tokens := [⟨"a", OutcomeType.good, Tier.basic, false⟩] }
      = Phase.playing) ∧
    (handleTokenClick "a"
        { initState with phase := .playing,
                         tokens := [⟨"a", OutcomeType.good, Tier.basic, false⟩] }).phase
      = Phase.summary := by
  refine ⟨rfl, ?_⟩
  have h := handleTokenClick_reveal_spec
    { initState with phase := .playing,
                     tokens := [⟨"a", OutcomeType.good, Tier.basic, false⟩] }
    ⟨"a", OutcomeType.good, Tier.basic, false⟩ "a" rfl (by simp) rfl rfl (by decide)
  exact (h.2.2.2.2.2 (by decide)).1

theorem revealMap_all_revealed (id : String) (l : List Token) :
    ∀ u ∈ revealMap id l, u.id = id → u.revealed = true := by
  intro u hu hid
  simp only [revealMap, List.mem_map] at hu
  obtain ⟨v, _, rfl⟩ := hu
  by_cases h : (v.id == id) = true
  · simp [h]
  · simp only [h, if_neg, Bool.false_eq_true, ite_false] at hid ⊢
    exact absurd (by simp [hid]) h

theorem find?_some_pred {α : Type} (p : α → Bool) (l : List α) (a : α)
    (h : l.find? p = some a) : p a = true :=
  List.find?_some h

theorem handleTokenClick_noop_of_all_revealed (s : GameState) (id : String)
    (hall : ∀ t ∈ s.tokens, t.id = id → t.revealed = true) :
    handleTokenClick id s = s := by
  cases hfind : s.tokens.find? (fun u => u.id == id) with
  | none =>
    unfold handleTokenClick
    rw [hfind]
  | some c =>
    have hc1 : c ∈ s.tokens := List.mem_of_find?_eq_some hfind
    have hc2 := find?_some_pred (fun u : Token => u.id == id) s.tokens c hfind
    have hcr : c.revealed = true := hall c hc1 (by simpa using hc2)
    unfold handleTokenClick
    rw [hfind]
    simp [hcr]

/-- C7 (amended): `handleTokenClick` is a no-op — returning the state
unchanged, never raising — whenever every token carrying the clicked id
is already revealed (in particular when the id matches no token), in any
phase; and it is idempotent: a second click on the same id never changes
the state again.  The outside-`playing` no-op, however, is enforced by
the UI wiring only, not by the handler itself. -/
theorem handleTokenClick_noop_idempotent (s : GameState) (id : String) :
    ((∀ t ∈ s.tokens, t.id = id → t.revealed = true) → handleTokenClick id s = s) ∧
    handleTokenClick id (handleTokenClick id s) = handleTokenClick id s := by
  refine ⟨handleTokenClick_noop_of_all_revealed s id, ?_⟩
  cases hfind : s.tokens.find? (fun u => u.id == id) with
  | none =>
    have h1 : handleTokenClick id s = s := by
      unfold handleTokenClick
      rw [hfind]
    rw [h1]
    exact h1
  | some c =>
    by_cases hcr : c.revealed = true
    · have h1 : handleTokenClick id s = s := by
        unfold handleTokenClick
        rw [hfind]
        simp [hcr]
      rw [h1]
      exact h1
    · have htok : (handleTokenClick id s).tokens = revealMap id s.tokens := by
        unfold handleTokenClick
        rw [hfind]
        by_cases hty : c.type = OutcomeType.retry <;> simp [hcr, hty]
      apply handleTokenClick_noop_of_all_revealed
      rw [htok]
      exact revealMap_all_revealed id s.tokens

theorem handleTokenClick_noop_idempotent_witness :
    handleTokenClick "b"
        { initState with tokens := [⟨"a", OutcomeType.good, Tier.basic, false⟩] }
      = { initState with tokens := [⟨"a", OutcomeType.good, Tier.basic, false⟩] } :=
  (handleTokenClick_noop_idempotent
    { initState with tokens := [⟨"a", OutcomeType.good, Tier.basic, false⟩] } "b").1
    (by decide)

/-- C7 (counterexample): invoked outside the `playing` phase — here in
`input`, on a reachable-shaped state holding an unrevealed token — the
handler does change the state: it has no phase guard. -/
theorem handleTokenClick_applies_outside_playing :
    c7InputState.phase ≠ .playing ∧
    handleTokenClick "a" c7InputState ≠ c7InputState := by
  exact ⟨by decide, by decide⟩

theorem rollBatch_length (ρ : Nat → Nat) (pos count : Nat) :
    (rollBatch ρ pos count).length = count := by
  simp [rollBatch]

theorem rollBatch_mem (ρ : Nat → Nat) (hρ : ∀ i, 1 ≤ ρ i ∧ ρ i ≤ 10)
    (pos count : Nat) : ∀ x ∈ rollBatch ρ pos count, 1 ≤ x ∧ x ≤ 10 := by
  intro x hx
  simp [rollBatch] at hx
  obtain ⟨i, _, rfl⟩ := hx
  exact hρ (pos + i)

theorem performRolls_spec_aux (ρ : Nat → Nat) (hρ : ∀ i, 1 ≤ ρ i ∧ ρ i ≤ 10) :
    ∀ fuel pos count rolls succ,
      performRolls ρ fuel pos count = some (rolls, succ) →
      (∀ x ∈ rolls, 1 ≤ x ∧ x ≤ 10) ∧
      rolls.length = count + rolls.countP (fun r => r == 10) ∧
      succ = rolls.countP (fun r => 8 ≤ r) := by
  intro fuel
  induction fuel with
  | zero =>
    intro pos count rolls succ h
    exact absurd h (by simp [performRolls])
  | succ fuel ih =>
    intro pos count rolls succ h
    unfold performRolls at h
    by_cases htens : (rollBatch ρ pos count).countP (fun r => r == 10) = 0
    · rw [if_pos htens] at h
      injection h with h'
      injection h' with h1 h2
      subst h1
      subst h2
      refine ⟨rollBatch_mem ρ hρ pos count, ?_, rfl⟩
      rw [rollBatch_length, htens]
      omega
    · rw [if_neg htens] at h
      cases hrec : performRolls ρ fuel (pos + count)
          ((rollBatch ρ pos count).countP (fun r => r == 10)) with
      | none =>
        rw [hrec] at h
        cases h
      | some pr =>
        obtain ⟨rs, s2⟩ := pr
        rw [hrec] at h
        injection h with h'
        injection h' with h1 h2
        subst h1
        subst h2
        obtain ⟨ihb, ihlen, ihsucc⟩ := ih (pos + count) _ rs s2 hrec
        refine ⟨?_, ?_, ?_⟩
        · intro x hx
          rcases List.mem_append.mp hx with hx | hx
          · exact rollBatch_mem ρ hρ pos count x hx
          · exact ihb x hx
        · rw [List.length_append, rollBatch_length, List.countP_append, ihlen]
        · rw [List.countP_append, ihsucc]

/-- C8: for every dice configuration with a positive total and every draw
stream producing values in `[1,10]`, a completed `rollDice` stores rolls
that all lie in `[1,10]` in draw order, at least `total` of them, with
exactly one extra roll per 10 rolled (recursively), and a success count
equal to the number of rolls `≥ 8`. -/
theorem rollDice_rolls_spec (ρ : Nat → Nat) (fuel : Nat) (s s' : DiceState)
    (hρ : ∀ i, 1 ≤ ρ i ∧ ρ i ≤ 10)
    (htot : 0 < s.stats + s.skills + s.bonuses)
    (h : rollDice ρ fuel s = some s') :
    (∀ x ∈ s'.lastRolls, 1 ≤ x ∧ x ≤ 10) ∧
    s.stats + s.skills + s.bonuses ≤ s'.lastRolls.length ∧
    s'.lastRolls.length
      = s.stats + s.skills + s.bonuses + s'.lastRolls.countP (fun r => r == 10) ∧
    s'.totalSuccesses = some (s'.lastRolls.countP (fun r => 8 ≤ r)) := by
  unfold rollDice at h
  rw [if_neg (by omega)] at h
  cases hrec : performRolls ρ fuel 0 (s.stats + s.skills + s.bonuses) with
  | none =>
    rw [hrec] at h
    cases h
  | some pr =>
    obtain ⟨rolls, succ⟩ := pr
    rw [hrec] at h
    injection h with h'
    subst h'
    obtain ⟨hb, hlen, hsucc⟩ := performRolls_spec_aux ρ hρ fuel 0 _ rolls succ hrec
    refine ⟨hb, ?_, hlen, congrArg some hsucc⟩
    show s.stats + s.skills + s.bonuses ≤ rolls.length
    omega

theorem rollDice_rolls_spec_witness :
    (0 < 1 + 0 + 0) ∧
    (DiceState.mk 1 0 0 [5] (some 0)).lastRolls.length
      = 1 + 0 + 0 + (DiceState.mk 1 0 0 [5] (some 0)).lastRolls.countP (fun r => r == 10) :=
  ⟨by decide,
   (rollDice_rolls_spec (fun _ => 5) 1 ⟨1, 0, 0, [], none⟩ ⟨1, 0, 0, [5], some 0⟩
      (fun i => by show 1 ≤ 5 ∧ 5 ≤ 10; decide) (by decide) (by decide)).2.2.1⟩

theorem performRolls_allTens_none :
    ∀ fuel pos, performRolls (fun _ => 10) fuel pos 1 = none := by
  intro fuel
  induction fuel with
  | zero => intro pos; rfl
  | succ fuel ih =>
    intro pos
    have hbatch : rollBatch (fun _ => 10) pos 1 = [10] := rfl
    unfold performRolls
    rw [hbatch]
    simp [ih]

/-- C9 (counterexample): on the draw stream that always returns 10, every
depth re-rolls one die and rolls another 10, so `performRolls` never
returns within any fuel bound: the recursion does not terminate for every
sequence of draws. -/
theorem performRolls_allTens_diverges : ¬ TerminatesRolls (fun _ => 10) 1 := by
  rintro ⟨fuel, r, h⟩
  rw [performRolls_allTens_none fuel 0] at h
  cases h

theorem performRolls_total_aux (ρ : Nat → Nat) (N : Nat)
    (hN : ∀ i, N ≤ i → ρ i ≠ 10) :
    ∀ fuel pos count, N + 1 ≤ pos + fuel → 1 ≤ fuel →
      ∃ r, performRolls ρ fuel pos count = some r := by
  intro fuel
  induction fuel with
  | zero =>
    intro pos count _ h
    omega
  | succ fuel ih =>
    intro pos count hpf _
    by_cases htens : (rollBatch ρ pos count).countP (fun r => r == 10) = 0
    · exact ⟨_, by unfold performRolls; rw [if_pos htens]⟩
    · have hpos : 0 < (rollBatch ρ pos count).countP (fun r => r == 10) :=
        Nat.pos_of_ne_zero htens
      obtain ⟨x, hx, hx10⟩ := List.countP_pos_iff.mp hpos
      have hx10' : x = 10 := by simpa using hx10
      obtain ⟨i, hi, hxi⟩ : ∃ i, i < count ∧ ρ (pos + i) = x := by
        simpa [rollBatch] using hx
      have hlt : pos + i < N := by
        by_contra hge
        exact hN (pos + i) (by omega) (by rw [hxi]; exact hx10')
      have hcount : 1 ≤ count := by omega
      obtain ⟨⟨rs, s2⟩, hr⟩ := ih (pos + count)
        ((rollBatch ρ pos count).countP (fun r => r == 10)) (by omega) (by omega)
      exact ⟨_, by unfold performRolls; rw [if_neg htens, hr]⟩

/-- C9 (amended): the exploding recursion terminates for every draw stream
in which the value 10 stops occurring from some position on (in
particular for every stream with finitely many tens) and every initial
pool size; termination is almost-sure over fair draws, not universal. -/
theorem performRolls_terminates_of_eventually_no_tens
    (ρ : Nat → Nat) (N : Nat) (hN : ∀ i, N ≤ i → ρ i ≠ 10) (n : Nat) :
    TerminatesRolls ρ n := by
  obtain ⟨r, hr⟩ := performRolls_total_aux ρ N hN (N + 1) 0 n (by omega) (by omega)
  exact ⟨N + 1, r, hr⟩

theorem performRolls_terminates_witness : TerminatesRolls (fun _ => 5) 1 :=
  performRolls_terminates_of_eventually_no_tens (fun _ => 5) 0
    (fun i _ => by show (5 : Nat) ≠ 10; decide) 1

/-- C10: a completed `rollDice` with a positive configured total updates
only `lastRolls` and `totalSuccesses`; the configured `stats`, `skills`
and `bonuses` are unchanged. -/
theorem rollDice_frame (ρ : Nat → Nat) (fuel : Nat) (s s' : DiceState)
    (htot : 0 < s.stats + s.skills + s.bonuses)
    (h : rollDice ρ fuel s = some s') :
    s'.stats = s.stats ∧ s'.skills = s.skills ∧ s'.bonuses = s.bonuses := by
  unfold rollDice at h
  rw [if_neg (by omega)] at h
  cases hrec : performRolls ρ fuel 0 (s.stats + s.skills + s.bonuses) with
  | none =>
    rw [hrec] at h
    cases h
  | some pr =>
    obtain ⟨rolls, succ⟩ := pr
    rw [hrec] at h
    injection h with h'
    subst h'
    exact ⟨rfl, rfl, rfl⟩

theorem rollDice_frame_witness :
    (0 < 1 + 0 + 0) ∧
    (DiceState.mk 1 0 0 [5] (some 0)).stats = (DiceState.mk 1 0 0 [] none).stats :=
  ⟨by decide,
   (rollDice_frame (fun _ => 5) 1 ⟨1, 0, 0, [], none⟩ ⟨1, 0, 0, [5], some 0⟩
      (by decide) (by decide)).1⟩

end Roller
